import Mathlib

/-!
Verification development for the per-tenant block-shipping pipeline and
TSDB lifecycle manager (Go sources: the shipper file and
pkg/ingester/user_tsdb.go).

The Go code is shallowly embedded: pure data and control flow are
translated directly; effectful collaborators (the remote object store,
the upload operation, the clock, the local meta files) become explicit
oracles and values threaded through the functions.
-/

namespace Mimir

/-! ## Block identifiers and block metadata

A ULID is modelled as an opaque numeric identifier together with its
embedded creation timestamp (`ULID.Time()` in Go, milliseconds). -/

structure ULID where
  id : Nat
  time : Nat
deriving DecidableEq, Repr

/-- The fields of `metadata.Meta` that `Shipper.Sync` inspects:
`m.ULID`, `m.BlockMeta.MinTime` (used by `blockMetasFromOldest` for
sorting), `m.Stats.NumSamples` and `m.Compaction.Level`. -/
structure BlockMeta where
  ulid : ULID
  minTime : Nat
  numSamples : Nat
  compactionLevel : Nat
deriving DecidableEq, Repr

/-- Association-list lookup, modelling Go's `shippedBlocks[m.ULID]`
map access (`map[ulid.ULID]time.Time`). -/
def lookupTime : List (ULID × Nat) → ULID → Option Nat
  | [], _ => none
  | (a, t) :: rest, k => if a = k then some t else lookupTime rest k

/-! ## The shipper meta files

`shipperMeta` / `thanosShipperMeta` and their on-disk encodings.
On-disk JSON bytes are abstracted: a file is either absent, unparsable,
or holds a well-formed content value. -/

/-- `shipperMetaVersion1` in the Go source. -/
def shipperMetaVersion1 : Nat := 1

/-- Content of `mimir.shipper.json` (`shipperMeta` in Go): version tag
plus block-ID-to-timestamp map. -/
structure MimirMetaContent where
  version : Nat
  shipped : List (ULID × Nat)
deriving DecidableEq, Repr

/-- Content of the legacy `thanos.shipper.json` (`thanosShipperMeta`):
version tag plus a block-ID list. -/
structure ThanosMetaContent where
  version : Nat
  uploaded : List ULID
deriving DecidableEq, Repr

/-- State of one on-disk file as seen by a reader. -/
inductive FileState (α : Type) where
  | absent
  | corrupt
  | ok (content : α)
deriving DecidableEq, Repr

/-- A tenant directory's two shipper meta files. -/
structure TenantDir where
  mimirFile : FileState MimirMetaContent
  thanosFile : FileState ThanosMetaContent
deriving DecidableEq, Repr

/-- Errors surfaced by the meta-file readers. `notExist` corresponds to
`os.ErrNotExist`, `parseFailed` to a read or JSON-unmarshal failure,
`badVersion` to the `m.Version != shipperMetaVersion1` check. -/
inductive ReadErr where
  | notExist
  | parseFailed
  | badVersion
deriving DecidableEq, Repr

/-- `readShipperMetaFile`: reads `<dir>/mimir.shipper.json`, failing on a
missing or unparsable file or a version other than 1. -/
def readShipperMetaFile (dir : TenantDir) : Except ReadErr MimirMetaContent :=
  match dir.mimirFile with
  | .absent => .error .notExist
  | .corrupt => .error .parseFailed
  | .ok m => if m.version ≠ shipperMetaVersion1 then .error .badVersion else .ok m

/-- `readThanosShipperMetaFile`: same checks against the legacy file. -/
def readThanosShipperMetaFile (dir : TenantDir) : Except ReadErr ThanosMetaContent :=
  match dir.thanosFile with
  | .absent => .error .notExist
  | .corrupt => .error .parseFailed
  | .ok m => if m.version ≠ shipperMetaVersion1 then .error .badVersion else .ok m

/-- `readThanosShippedBlocks`: a missing legacy file (`os.ErrNotExist`)
means the shipper has not run yet and yields the empty set; any other
error is returned; on success every listed block is mapped to the
current time (`time.Now()`, the `now` parameter here). -/
def readThanosShippedBlocks (now : Nat) (dir : TenantDir) :
    Except ReadErr (List (ULID × Nat)) :=
  match readThanosShipperMetaFile dir with
  | .error .notExist => .ok []
  | .error e => .error e
  | .ok m => .ok (m.uploaded.map (fun b => (b, now)))

/-- `readShippedBlocks`: try the current format first; on any failure
fall back to the legacy reader. A successful current-format read converts
each `model.Time` to `time.Time` (identity in this model). -/
def readShippedBlocks (now : Nat) (dir : TenantDir) :
    Except ReadErr (List (ULID × Nat)) :=
  match readShipperMetaFile dir with
  | .ok m => .ok m.shipped
  | .error _ => readThanosShippedBlocks now dir

/-- `writeShipperMetaFile`: writes the current-format file from the given
meta, then the legacy file with the same version tag and the key set of
the shipped map (Go iterates the map; this model fixes the list order). -/
def writeShipperMetaFile (meta : MimirMetaContent) :
    MimirMetaContent × ThanosMetaContent :=
  (meta, ⟨shipperMetaVersion1, meta.shipped.map Prod.fst⟩)

/-! ## Shipper.Sync

The environment bundles the effectful collaborators of one Sync pass:
`bucketExists` is `s.bucket.Exists` on the block's meta object path
(`.error` models a failed existence check), `uploadOK` tells whether
`s.upload` succeeds for a block, and `now` is the clock (`model.Now()`).
-/

structure SyncEnv where
  bucketExists : ULID → Except Unit Bool
  uploadOK : ULID → Bool
  now : Nat

/-- Mutable state of the Sync loop: the `shipped` counter, the
`uploadErrs` counter, the new record `meta.Shipped` being built, plus
trace lists of the existence checks and uploads performed (the calls the
Go code issues to the bucket). -/
structure SyncState where
  shipped : Nat
  uploadErrs : Nat
  record : List (ULID × Nat)
  checked : List ULID
  attempted : List ULID
deriving DecidableEq, Repr

/-- Initial loop state. -/
def initSyncState : SyncState := ⟨0, 0, [], [], []⟩

/-- Outcome of the per-block loop: `abort` is the early
`return 0, errors.Wrap(err, "check exists")` path (the state at the abort
point is kept for reasoning about discarded progress). -/
inductive SyncPass where
  | abort (st : SyncState)
  | done (st : SyncState)
deriving DecidableEq, Repr

/-- The state carried by either outcome. -/
def SyncPass.state : SyncPass → SyncState
  | .abort st => st
  | .done st => st

/-- The per-block loop of `Shipper.Sync` (the `for _, m := range metas`
body): carry already-shipped blocks forward, skip empty blocks and
blocks of compaction level > 1, count remotely-existing blocks as
shipped without uploading, otherwise upload and either record the block
or count the failure. -/
def syncGo (env : SyncEnv) (prior : List (ULID × Nat)) :
    SyncState → List BlockMeta → SyncPass
  | st, [] => .done st
  | st, m :: rest =>
    match lookupTime prior m.ulid with
    | some t =>
      syncGo env prior { st with record := st.record ++ [(m.ulid, t)] } rest
    | none =>
      if m.numSamples = 0 then
        syncGo env prior st rest
      else if m.compactionLevel > 1 then
        syncGo env prior st rest
      else
        match env.bucketExists m.ulid with
        | .error _ => .abort { st with checked := st.checked ++ [m.ulid] }
        | .ok true =>
          syncGo env prior
            { st with
              record := st.record ++ [(m.ulid, env.now)]
              shipped := st.shipped + 1
              checked := st.checked ++ [m.ulid] } rest
        | .ok false =>
          if env.uploadOK m.ulid then
            syncGo env prior
              { st with
                record := st.record ++ [(m.ulid, env.now)]
                shipped := st.shipped + 1
                checked := st.checked ++ [m.ulid]
                attempted := st.attempted ++ [m.ulid] } rest
          else
            syncGo env prior
              { st with
                uploadErrs := st.uploadErrs + 1
                checked := st.checked ++ [m.ulid]
                attempted := st.attempted ++ [m.ulid] } rest

/-- Errors returned by `Sync`: the wrapped existence-check error, or
`errors.Errorf("failed to sync %v blocks", uploadErrs)`, which carries
the failure count. -/
inductive SyncErr where
  | checkExists
  | syncFailed (n : Nat)
deriving DecidableEq, Repr

/-- Result of one `Sync` call: the returned shipped count, the returned
error, and the pair of meta files persisted by `writeShipperMetaFile`
(`none` when the pass aborted before reaching the write). -/
structure SyncResult where
  shipped : Nat
  error : Option SyncErr
  files : Option (MimirMetaContent × ThanosMetaContent)
deriving DecidableEq, Repr

/-- `Shipper.Sync` over a given previously-shipped set and sorted meta
list: run the loop; on an existence-check error return `(0, err)` without
writing the meta files; otherwise persist the new record (current +
legacy format) and return the shipped count with an aggregate error iff
any upload failed. -/
def sync (env : SyncEnv) (prior : List (ULID × Nat)) (metas : List BlockMeta) :
    SyncResult :=
  match syncGo env prior initSyncState metas with
  | .abort _ => ⟨0, some .checkExists, none⟩
  | .done st =>
    let files := writeShipperMetaFile ⟨shipperMetaVersion1, st.record⟩
    if st.uploadErrs > 0 then
      ⟨st.shipped, some (.syncFailed st.uploadErrs), some files⟩
    else
      ⟨st.shipped, none, some files⟩

/-- The previously-shipped set visible to the next pass: the record the
pass persisted, or the unchanged prior set when the pass aborted before
writing. -/
def syncPassRecord (env : SyncEnv) (prior : List (ULID × Nat))
    (metas : List BlockMeta) : List (ULID × Nat) :=
  match syncGo env prior initSyncState metas with
  | .abort _ => prior
  | .done st => st.record

/-- Iterated Sync passes over a fixed local block set, with a
possibly-different environment on each pass. -/
def syncIter (envs : Nat → SyncEnv) (metas : List BlockMeta)
    (prior : List (ULID × Nat)) : Nat → List (ULID × Nat)
  | 0 => prior
  | n + 1 => syncPassRecord (envs n) (syncIter envs metas prior n) metas

/-! ## Classification of blocks within one Sync pass

Boolean combinators describing, per block, which branch of the loop body
fires; used to characterise the loop's final state. -/

/-- The block is not in the previously-shipped set. -/
def isFresh (prior : List (ULID × Nat)) (m : BlockMeta) : Bool :=
  (lookupTime prior m.ulid).isNone

/-- The block passes the sample-count and compaction-level filters. -/
def isEligible (m : BlockMeta) : Bool :=
  decide (m.numSamples ≠ 0) && decide (m.compactionLevel ≤ 1)

/-- The remote existence check succeeds and reports the meta object
present. -/
def remotePresent (env : SyncEnv) (m : BlockMeta) : Bool :=
  match env.bucketExists m.ulid with
  | .ok true => true
  | _ => false

/-- The remote existence check succeeds and reports the meta object
absent. -/
def remoteAbsent (env : SyncEnv) (m : BlockMeta) : Bool :=
  match env.bucketExists m.ulid with
  | .ok false => true
  | _ => false

/-- The block contributes 1 to the returned shipped count: fresh,
eligible, and either already present remotely or uploaded
successfully. -/
def shipContrib (env : SyncEnv) (prior : List (ULID × Nat)) (m : BlockMeta) : Bool :=
  isFresh prior m && isEligible m &&
    (remotePresent env m || (remoteAbsent env m && env.uploadOK m.ulid))

/-- The block contributes 1 to `uploadErrs`. -/
def failContrib (env : SyncEnv) (prior : List (ULID × Nat)) (m : BlockMeta) : Bool :=
  isFresh prior m && isEligible m && remoteAbsent env m && !env.uploadOK m.ulid

/-- The block reaches the `bucket.Exists` call. -/
def checkPred (prior : List (ULID × Nat)) (m : BlockMeta) : Bool :=
  isFresh prior m && isEligible m

/-- The block reaches the `upload` call. -/
def attemptPred (env : SyncEnv) (prior : List (ULID × Nat)) (m : BlockMeta) : Bool :=
  isFresh prior m && isEligible m && remoteAbsent env m

/-- The entry the block adds to the new shipped record: its prior
timestamp when carried forward, the current time when shipped in this
pass, nothing otherwise. -/
def recEntry (env : SyncEnv) (prior : List (ULID × Nat)) (m : BlockMeta) :
    Option (ULID × Nat) :=
  match lookupTime prior m.ulid with
  | some t => some (m.ulid, t)
  | none =>
    if isEligible m &&
        (remotePresent env m || (remoteAbsent env m && env.uploadOK m.ulid)) then
      some (m.ulid, env.now)
    else
      none

/-- Characterisation of a completed (non-aborted) Sync loop: every field
of the final state is the initial field extended by the per-block
classification of the processed metas. -/
theorem syncGo_done_spec (env : SyncEnv) (prior : List (ULID × Nat)) :
    ∀ (metas : List BlockMeta) (st st' : SyncState),
      syncGo env prior st metas = .done st' →
      st'.shipped = st.shipped + metas.countP (shipContrib env prior) ∧
      st'.uploadErrs = st.uploadErrs + metas.countP (failContrib env prior) ∧
      st'.record = st.record ++ metas.filterMap (recEntry env prior) ∧
      st'.checked = st.checked ++ (metas.filter (checkPred prior)).map (·.ulid) ∧
      st'.attempted =
        st.attempted ++ (metas.filter (attemptPred env prior)).map (·.ulid) := by
  intro metas
  induction metas with
  | nil =>
    intro st st' h
    simp only [syncGo] at h
    cases h
    simp
  | cons m rest ih =>
    intro st st' h
    simp only [syncGo] at h
    cases hlk : lookupTime prior m.ulid with
    | some t =>
      rw [hlk] at h
      obtain ⟨h1, h2, h3, h4, h5⟩ := ih _ _ h
      refine ⟨?_, ?_, ?_, ?_, ?_⟩ <;>
        simp [h1, h2, h3, h4, h5, shipContrib, failContrib, checkPred, attemptPred,
          recEntry, isFresh, hlk, List.countP_cons]
    | none =>
      rw [hlk] at h
      by_cases hs : m.numSamples = 0
      · rw [if_pos hs] at h
        obtain ⟨h1, h2, h3, h4, h5⟩ := ih _ _ h
        refine ⟨?_, ?_, ?_, ?_, ?_⟩ <;>
          simp [h1, h2, h3, h4, h5, shipContrib, failContrib, checkPred, attemptPred,
            recEntry, isFresh, isEligible, hlk, hs, List.countP_cons]
      · rw [if_neg hs] at h
        by_cases hl : m.compactionLevel > 1
        · rw [if_pos hl] at h
          obtain ⟨h1, h2, h3, h4, h5⟩ := ih _ _ h
          have hl' : ¬ m.compactionLevel ≤ 1 := by omega
          refine ⟨?_, ?_, ?_, ?_, ?_⟩ <;>
            simp [h1, h2, h3, h4, h5, shipContrib, failContrib, checkPred, attemptPred,
              recEntry, isFresh, isEligible, hlk, hs, hl', List.countP_cons]
        · rw [if_neg hl] at h
          have hl' : m.compactionLevel ≤ 1 := by omega
          cases hex : env.bucketExists m.ulid with
          | error e =>
            rw [hex] at h
            cases h
          | ok b =>
            rw [hex] at h
            cases b with
            | true =>
              obtain ⟨h1, h2, h3, h4, h5⟩ := ih _ _ h
              refine ⟨?_, ?_, ?_, ?_, ?_⟩ <;>
                simp [h1, h2, h3, h4, h5, shipContrib, failContrib, checkPred,
                  attemptPred, recEntry, isFresh, isEligible, remotePresent,
                  remoteAbsent, hlk, hs, hl', hex, List.countP_cons] <;> omega
            | false =>
              by_cases hup : env.uploadOK m.ulid
              · rw [if_pos hup] at h
                obtain ⟨h1, h2, h3, h4, h5⟩ := ih _ _ h
                refine ⟨?_, ?_, ?_, ?_, ?_⟩ <;>
                  simp [h1, h2, h3, h4, h5, shipContrib, failContrib, checkPred,
                    attemptPred, recEntry, isFresh, isEligible, remotePresent,
                    remoteAbsent, hlk, hs, hl', hex, hup, List.countP_cons] <;> omega
              · rw [if_neg hup] at h
                obtain ⟨h1, h2, h3, h4, h5⟩ := ih _ _ h
                refine ⟨?_, ?_, ?_, ?_, ?_⟩ <;>
                  simp [h1, h2, h3, h4, h5, shipContrib, failContrib, checkPred,
                    attemptPred, recEntry, isFresh, isEligible, remotePresent,
                    remoteAbsent, hlk, hs, hl', hex, hup, List.countP_cons] <;> omega

/-- The loop distributes over list append: the suffix continues from the
prefix's final state, and a prefix abort aborts the whole pass. -/
theorem syncGo_append (env : SyncEnv) (prior : List (ULID × Nat)) :
    ∀ (l1 l2 : List BlockMeta) (st : SyncState),
      syncGo env prior st (l1 ++ l2) =
        match syncGo env prior st l1 with
        | .abort st' => .abort st'
        | .done st' => syncGo env prior st' l2 := by
  intro l1
  induction l1 with
  | nil => intro l2 st; simp [syncGo]
  | cons m rest ih =>
    intro l2 st
    simp only [List.cons_append, syncGo]
    cases hlk : lookupTime prior m.ulid with
    | some t => exact ih l2 _
    | none =>
      by_cases hs : m.numSamples = 0
      · simp only [if_pos hs]; exact ih l2 _
      · simp only [if_neg hs]
        by_cases hl : m.compactionLevel > 1
        · simp only [if_pos hl]; exact ih l2 _
        · simp only [if_neg hl]
          cases hex : env.bucketExists m.ulid with
          | error e => rfl
          | ok b =>
            cases b with
            | true => exact ih l2 _
            | false =>
              by_cases hup : env.uploadOK m.ulid
              · simp only [if_pos hup]; exact ih l2 _
              · simp only [if_neg hup]; exact ih l2 _

/-! ## Tenant lifecycle state machine (pkg/ingester/user_tsdb.go) -/

/-- `tsdbState` enum. -/
inductive TsdbState where
  | active
  | activeShipping
  | forceCompacting
  | closing
  | closed
deriving DecidableEq, Repr

/-- The lifecycle fields of `userTSDB` touched by the append-permit
protocol: `state` and the `pushesInFlight` counter (the wait group's
count). -/
structure Lifecycle where
  state : TsdbState
  pushesInFlight : Nat
deriving DecidableEq, Repr

/-- Errors returned by `acquireAppendLock`, one per message in the Go
switch. -/
inductive AppendLockErr where
  | forcedCompactionInProgress
  | tsdbClosing
  | tsdbNotActive
deriving DecidableEq, Repr

/-- `userTSDB.acquireAppendLock`: permitted only from `active` or
`activeShipping`, in which case the in-flight counter is incremented;
every other state returns a descriptive error (`closed` reaches the
default branch) and leaves the lifecycle untouched. -/
def acquireAppendLock (u : Lifecycle) : Option AppendLockErr × Lifecycle :=
  match u.state with
  | .active => (none, { u with pushesInFlight := u.pushesInFlight + 1 })
  | .activeShipping => (none, { u with pushesInFlight := u.pushesInFlight + 1 })
  | .forceCompacting => (some .forcedCompactionInProgress, u)
  | .closing => (some .tsdbClosing, u)
  | .closed => (some .tsdbNotActive, u)

/-! ## Forced head compaction

The head is modelled by the multiset of its sample timestamps;
`h.MinTime()` / `h.MaxTime()` are its min/max, and
`db.CompactHead(NewRangeHead(h, mint, maxt))` compacts that range into a
block and truncates the head past `maxt`, i.e. keeps the samples with
timestamp `> maxt`. `compactFail` is the error oracle for the
`CompactHead` collaborator. -/

/-- Minimum of a sample list (`h.MinTime()`); only used on non-empty
heads (an empty Go head reports sentinel values instead). -/
def minT : List Nat → Nat
  | [] => 0
  | x :: xs => xs.foldl min x

/-- Maximum of a sample list (`h.MaxTime()`). -/
def maxT : List Nat → Nat
  | [] => 0
  | x :: xs => xs.foldl max x

theorem foldl_min_mem (xs : List Nat) : ∀ a : Nat, xs.foldl min a ∈ a :: xs := by
  induction xs with
  | nil => intro a; simp
  | cons x xs ih =>
    intro a
    have h := ih (min a x)
    rcases min_choice a x with hc | hc <;>
      · rw [List.foldl_cons]
        rcases List.mem_cons.1 h with h1 | h1 <;> simp [hc] at h1 ⊢ <;> simp [h1]

theorem foldl_min_le (xs : List Nat) : ∀ a : Nat, ∀ x, x ∈ a :: xs → xs.foldl min a ≤ x := by
  induction xs with
  | nil => intro a x hx; simp at hx; simp [hx]
  | cons y xs ih =>
    intro a x hx
    rw [List.foldl_cons]
    rcases List.mem_cons.1 hx with h1 | h1
    · rw [h1]
      exact le_trans (ih (min a y) _ (List.mem_cons_self _ _)) (min_le_left a y)
    · rcases List.mem_cons.1 h1 with h2 | h2
      · rw [h2]
        exact le_trans (ih (min a y) _ (List.mem_cons_self _ _)) (min_le_right a y)
      · exact ih (min a y) _ (List.mem_cons.2 (Or.inr h2))

theorem foldl_max_mem (xs : List Nat) : ∀ a : Nat, xs.foldl max a ∈ a :: xs := by
  induction xs with
  | nil => intro a; simp
  | cons x xs ih =>
    intro a
    have h := ih (max a x)
    rcases max_choice a x with hc | hc <;>
      · rw [List.foldl_cons]
        rcases List.mem_cons.1 h with h1 | h1 <;> simp [hc] at h1 ⊢ <;> simp [h1]

theorem le_foldl_max (xs : List Nat) : ∀ a : Nat, ∀ x, x ∈ a :: xs → x ≤ xs.foldl max a := by
  induction xs with
  | nil => intro a x hx; simp at hx; simp [hx]
  | cons y xs ih =>
    intro a x hx
    rw [List.foldl_cons]
    rcases List.mem_cons.1 hx with h1 | h1
    · rw [h1]
      exact le_trans (le_max_left a y) (ih (max a y) _ (List.mem_cons_self _ _))
    · rcases List.mem_cons.1 h1 with h2 | h2
      · rw [h2]
        exact le_trans (le_max_right a y) (ih (max a y) _ (List.mem_cons_self _ _))
      · exact ih (max a y) _ (List.mem_cons.2 (Or.inr h2))

theorem minT_mem {s : List Nat} (h : s ≠ []) : minT s ∈ s := by
  cases s with
  | nil => exact absurd rfl h
  | cons x xs => exact foldl_min_mem xs x

theorem minT_le {s : List Nat} {x : Nat} (hx : x ∈ s) : minT s ≤ x := by
  cases s with
  | nil => cases hx
  | cons y xs => exact foldl_min_le xs y x hx

theorem maxT_mem {s : List Nat} (h : s ≠ []) : maxT s ∈ s := by
  cases s with
  | nil => exact absurd rfl h
  | cons x xs => exact foldl_max_mem xs x

theorem le_maxT {s : List Nat} {x : Nat} (hx : x ∈ s) : x ≤ maxT s := by
  cases s with
  | nil => cases hx
  | cons y xs => exact le_foldl_max xs y x hx

/-- With `d > 0`, the aligned boundary strictly exceeds the value it is
computed from: `mn < (mn / d + 1) * d`. -/
theorem lt_boundary (mn : Nat) {d : Nat} (hd : 0 < d) : mn < (mn / d + 1) * d := by
  have hmod : mn % d < d := Nat.mod_lt _ hd
  have hdm : d * (mn / d) + mn % d = mn := Nat.div_add_mod mn d
  calc mn = d * (mn / d) + mn % d := hdm.symm
    _ < d * (mn / d) + d := by omega
    _ = (mn / d + 1) * d := by ring

/-- `userTSDB.compactHead`'s splitting loop: while the head's min and max
times fall into different alignment buckets of the block duration `d`,
compact `[minTime, (minTime/d + 1)*d - 1]` and recompute; finally
compact the remaining `[minTime, maxTime]`. Returns the ranges handed to
`db.CompactHead` in order, whether a compaction error occurred (the Go
code returns it immediately), and the remaining head samples. -/
def compactLoop (d : Nat) (compactFail : Nat → Nat → Bool) (s : List Nat) :
    List (Nat × Nat) × Bool × List Nat :=
  if hcond : s ≠ [] ∧ (minT s / d) * d ≠ (maxT s / d) * d then
    let mn := minT s
    let bmax := (mn / d + 1) * d - 1
    if compactFail mn bmax then
      ([(mn, bmax)], true, s)
    else
      let rest := compactLoop d compactFail (s.filter (fun t => decide (bmax < t)))
      ((mn, bmax) :: rest.1, rest.2.1, rest.2.2)
  else
    let mn := minT s
    let mx := maxT s
    if compactFail mn mx then
      ([(mn, mx)], true, s)
    else
      ([(mn, mx)], false, s.filter (fun t => decide (mx < t)))
termination_by s.length
decreasing_by
  have hd : 0 < d := by
    rcases Nat.eq_zero_or_pos d with h0 | h0
    · exact absurd (by simp [h0]) hcond.2
    · exact h0
  have hmn : minT s ∈ s := minT_mem hcond.1
  have hble : minT s ≤ (minT s / d + 1) * d - 1 := by
    have := lt_boundary (minT s) hd
    omega
  have : ¬ ((minT s / d + 1) * d - 1 < minT s) := by omega
  have hlt : (s.filter (fun t => decide ((minT s / d + 1) * d - 1 < t))).length < s.length := by
    apply List.length_filter_lt_length_iff_exists.2
    exact ⟨minT s, hmn, by simpa using this⟩
  simpa using hlt

/-- Errors from `userTSDB.compactHead`: the failed CAS into
`forceCompacting`, or a `db.CompactHead` failure. -/
inductive CompactErr where
  | notActive
  | compactionFailed
deriving DecidableEq, Repr

/-- Result of `compactHead`: final lifecycle state, returned error, and
the ranges handed to `db.CompactHead`. -/
structure CompactOutcome where
  state : TsdbState
  err : Option CompactErr
  ranges : List (Nat × Nat)
deriving DecidableEq, Repr

/-- `userTSDB.compactHead`: a head-only tenant returns immediately; the
CAS `active → forceCompacting` fails from any other state, returning an
error without touching the state; otherwise in-flight pushes are drained
and the splitting loop runs, and the deferred CAS
`forceCompacting → active` restores the state on every exit path. -/
def compactHead (headOnly : Bool) (st : TsdbState) (d : Nat)
    (compactFail : Nat → Nat → Bool) (samples : List Nat) : CompactOutcome :=
  if headOnly then
    ⟨st, none, []⟩
  else if st = .active then
    let r := compactLoop d compactFail samples
    ⟨.active, if r.2.1 then some .compactionFailed else none, r.1⟩
  else
    ⟨st, some .notActive, []⟩

/-! ## Idle-close decision -/

/-- `tsdbCloseCheckResult`. -/
inductive CloseResult where
  | idle
  | shippingDisabled
  | notIdle
  | notCompacted
  | notShipped
  | checkFailed
  | closeFailed
  | notActive
  | dataRemovalFailed
  | tenantMarkedForDeletion
  | idleClosed
deriving DecidableEq, Repr

/-- `tsdbCloseCheckResult.shouldClose`. -/
def CloseResult.shouldClose (r : CloseResult) : Bool :=
  r = CloseResult.idle || r = CloseResult.tenantMarkedForDeletion

/-- The fields of `userTSDB` consulted by `shouldCloseTSDB`:
`deletionMarkFound`, `lastUpdate` (unix seconds), head-only mode
(`u.head != nil`), the head series count, the local block list and the
cached shipped-block set. -/
structure UserTSDB where
  deletionMarkFound : Bool
  lastUpdate : Nat
  headOnly : Bool
  headNumSeries : Nat
  blocks : List ULID
  shippedCache : List ULID
deriving DecidableEq, Repr

/-- `userTSDB.isIdle`: `time.Unix(lastUpdate, 0).Add(idle).Before(now)`,
whole-second granularity. -/
def isIdle (u : UserTSDB) (now idle : Nat) : Bool :=
  decide (u.lastUpdate + idle < now)

/-- `userTSDB.getOldestUnshippedBlockTime`: 0 in head-only mode;
otherwise the fold over local blocks keeping the smallest `ULID.Time()`
among blocks not in the shipped cache, with 0 doubling as the
nothing-unshipped sentinel. -/
def getOldestUnshippedBlockTime (u : UserTSDB) : Nat :=
  if u.headOnly then 0
  else
    u.blocks.foldl
      (fun oldest b =>
        if b ∈ u.shippedCache then oldest
        else if oldest = 0 || b.time < oldest then b.time else oldest)
      0

/-- `userTSDB.shouldCloseTSDB`, with the current time passed explicitly
in place of `time.Now()`. -/
def shouldCloseTSDB (u : UserTSDB) (now idleTimeout : Nat) : CloseResult :=
  if u.deletionMarkFound then .tenantMarkedForDeletion
  else if ¬ isIdle u now idleTimeout then .notIdle
  else if u.headOnly then .idle
  else if u.headNumSeries > 0 then .notCompacted
  else if getOldestUnshippedBlockTime u > 0 then .notShipped
  else .idle

/-! ## Helper lemmas for the Sync loop -/

theorem lookupTime_mem : ∀ {l : List (ULID × Nat)} {k : ULID} {t : Nat},
    lookupTime l k = some t → (k, t) ∈ l := by
  intro l
  induction l with
  | nil => intro k t h; cases h
  | cons p rest ih =>
    intro k t h
    rw [lookupTime] at h
    by_cases hk : p.1 = k
    · rw [if_pos hk] at h
      cases h
      rw [← hk]
      exact List.mem_cons.2 (Or.inl rfl)
    · rw [if_neg hk] at h
      exact List.mem_cons.2 (Or.inr (ih h))

theorem mem_lookupTime : ∀ {l : List (ULID × Nat)} {k : ULID} {t : Nat},
    (k, t) ∈ l → ∃ t', lookupTime l k = some t' := by
  intro l
  induction l with
  | nil => intro k t h; cases h
  | cons p rest ih =>
    intro k t h
    rw [lookupTime]
    by_cases hk : p.1 = k
    · exact ⟨p.2, if_pos hk⟩
    · rw [if_neg hk]
      rcases List.mem_cons.1 h with h1 | h1
      · exact absurd (by rw [← h1]) hk
      · exact ih h1

/-- If no block that reaches the existence check gets a check error, the
loop completes. -/
theorem syncGo_no_abort (env : SyncEnv) (prior : List (ULID × Nat)) :
    ∀ (metas : List BlockMeta) (st : SyncState),
      (∀ m ∈ metas, checkPred prior m = true →
        ∀ e, env.bucketExists m.ulid ≠ .error e) →
      ∃ st', syncGo env prior st metas = .done st' := by
  intro metas
  induction metas with
  | nil => intro st _; exact ⟨st, rfl⟩
  | cons m rest ih =>
    intro st h
    have hrest : ∀ m' ∈ rest, checkPred prior m' = true →
        ∀ e, env.bucketExists m'.ulid ≠ .error e :=
      fun m' hm' => h m' (List.mem_cons.2 (Or.inr hm'))
    simp only [syncGo]
    cases hlk : lookupTime prior m.ulid with
    | some t => exact ih _ hrest
    | none =>
      by_cases hs : m.numSamples = 0
      · rw [if_pos hs]; exact ih _ hrest
      · rw [if_neg hs]
        by_cases hl : m.compactionLevel > 1
        · rw [if_pos hl]; exact ih _ hrest
        · rw [if_neg hl]
          have hcp : checkPred prior m = true := by
            simp [checkPred, isFresh, isEligible, hlk, hs]
            omega
          cases hex : env.bucketExists m.ulid with
          | error e => exact absurd hex (h m (List.mem_cons.2 (Or.inl rfl)) hcp e)
          | ok b =>
            cases b with
            | true => exact ih _ hrest
            | false =>
              by_cases hup : env.uploadOK m.ulid
              · rw [if_pos hup]; exact ih _ hrest
              · rw [if_neg hup]; exact ih _ hrest

/-- Conversely, a completed loop never saw an existence-check error on a
block that reaches the check. -/
theorem syncGo_done_no_exists_error (env : SyncEnv) (prior : List (ULID × Nat)) :
    ∀ (metas : List BlockMeta) (st st' : SyncState),
      syncGo env prior st metas = .done st' →
      ∀ m ∈ metas, checkPred prior m = true →
        ∀ e, env.bucketExists m.ulid ≠ .error e := by
  intro metas
  induction metas with
  | nil => intro st st' _ m hm; cases hm
  | cons m0 rest ih =>
    intro st st' h m hm hcp e hex
    simp only [syncGo] at h
    rcases List.mem_cons.1 hm with hm1 | hm1
    · have hlk : lookupTime prior m.ulid = none := by
        have := hcp
        simp [checkPred, isFresh, Option.isNone_iff_eq_none] at this
        exact this.1
      have hs : ¬ m.numSamples = 0 := by
        have := hcp
        simp [checkPred, isEligible] at this
        omega
      have hl : ¬ m.compactionLevel > 1 := by
        have := hcp
        simp [checkPred, isEligible] at this
        omega
      rw [← hm1] at h
      rw [hlk, if_neg hs, if_neg hl, hex] at h
      cases h
    · cases hlk : lookupTime prior m0.ulid with
      | some t =>
        rw [hlk] at h
        exact ih _ _ h m hm1 hcp e hex
      | none =>
        rw [hlk] at h
        by_cases hs : m0.numSamples = 0
        · rw [if_pos hs] at h
          exact ih _ _ h m hm1 hcp e hex
        · rw [if_neg hs] at h
          by_cases hl : m0.compactionLevel > 1
          · rw [if_pos hl] at h
            exact ih _ _ h m hm1 hcp e hex
          · rw [if_neg hl] at h
            cases hex0 : env.bucketExists m0.ulid with
            | error e0 => rw [hex0] at h; cases h
            | ok b =>
              rw [hex0] at h
              cases b with
              | true => exact ih _ _ h m hm1 hcp e hex
              | false =>
                by_cases hup : env.uploadOK m0.ulid
                · rw [if_pos hup] at h
                  exact ih _ _ h m hm1 hcp e hex
                · rw [if_neg hup] at h
                  exact ih _ _ h m hm1 hcp e hex

/-- `filterMap` of a guarded constructor is `map` over `filter`. -/
theorem filterMap_guard_eq_map_filter {α β : Type} (p : α → Bool) (f : α → β) :
    ∀ l : List α,
      l.filterMap (fun a => if p a then some (f a) else none) =
        (l.filter p).map f := by
  intro l
  induction l with
  | nil => rfl
  | cons x xs ih => by_cases h : p x <;> simp [h, ih]

/-! ## Helper lemmas for the idle-close fold -/

/-- The `getOldestUnshippedBlockTime` fold leaves the accumulator
untouched when every block is in the shipped cache. -/
theorem oldestFold_all_shipped (cache : List ULID) :
    ∀ (bs : List ULID) (acc : Nat), (∀ b ∈ bs, b ∈ cache) →
      bs.foldl
        (fun oldest b =>
          if b ∈ cache then oldest
          else if oldest = 0 || b.time < oldest then b.time else oldest)
        acc = acc := by
  intro bs
  induction bs with
  | nil => intro acc _; rfl
  | cons b bs ih =>
    intro acc h
    rw [List.foldl_cons, if_pos (h b (List.mem_cons_self _ _))]
    exact ih acc (fun x hx => h x (List.mem_cons.2 (Or.inr hx)))

/-- The `getOldestUnshippedBlockTime` fold returns a positive value when
some block is unshipped, provided every unshipped block has a positive
ULID timestamp. -/
theorem oldestFold_pos (cache : List ULID) :
    ∀ (bs : List ULID) (acc : Nat),
      (∀ b ∈ bs, b ∉ cache → 0 < b.time) →
      (0 < acc ∨ ∃ b ∈ bs, b ∉ cache) →
      0 < bs.foldl
        (fun oldest b =>
          if b ∈ cache then oldest
          else if oldest = 0 || b.time < oldest then b.time else oldest)
        acc := by
  intro bs
  induction bs with
  | nil =>
    intro acc _ hd
    rcases hd with h | ⟨b, hb, _⟩
    · exact h
    · cases hb
  | cons b bs ih =>
    intro acc hpos hd
    rw [List.foldl_cons]
    by_cases hb : b ∈ cache
    · rw [if_pos hb]
      apply ih acc (fun x hx => hpos x (List.mem_cons.2 (Or.inr hx)))
      rcases hd with h | ⟨c, hc, hcc⟩
      · exact Or.inl h
      · rcases List.mem_cons.1 hc with h1 | h1
        · rw [h1] at hcc; exact absurd hb hcc
        · exact Or.inr ⟨c, h1, hcc⟩
    · rw [if_neg hb]
      have hbt : 0 < b.time := hpos b (List.mem_cons_self _ _) hb
      apply ih _ (fun x hx => hpos x (List.mem_cons.2 (Or.inr hx)))
      left
      by_cases hacc : acc = 0 || b.time < acc
      · rw [if_pos hacc]; exact hbt
      · rw [if_neg hacc]
        simp only [Bool.or_eq_true, decide_eq_true_eq] at hacc
        omega

/-! ## Claim theorems -/

/-- Claim C4: a forced-compaction request from any lifecycle state other
than exactly `active` (including `activeShipping`) returns an error and
leaves the state unchanged; an append-permit request while the state is
`forceCompacting`, `closing` or `closed` is rejected with the error
naming that conflict and the in-flight counter (indeed the whole
lifecycle) is untouched. -/
theorem state_conflict_rejections :
    (∀ (st : TsdbState) (d : Nat) (compactFail : Nat → Nat → Bool)
        (samples : List Nat), st ≠ .active →
      compactHead false st d compactFail samples = ⟨st, some .notActive, []⟩) ∧
    (∀ u : Lifecycle,
      (u.state = .forceCompacting →
        acquireAppendLock u = (some .forcedCompactionInProgress, u)) ∧
      (u.state = .closing → acquireAppendLock u = (some .tsdbClosing, u)) ∧
      (u.state = .closed → acquireAppendLock u = (some .tsdbNotActive, u))) := by
  constructor
  · intro st d compactFail samples hne
    simp [compactHead, hne]
  · intro u
    refine ⟨?_, ?_, ?_⟩ <;>
      · intro h
        simp [acquireAppendLock, h]

/-- Claim C4 witness: forced compaction attempted while shipping is in
progress, and an append permit requested during forced compaction. -/
theorem state_conflict_rejections_witness :
    compactHead false .activeShipping 7200000 (fun _ _ => false) [5] =
      ⟨.activeShipping, some .notActive, []⟩ ∧
    acquireAppendLock ⟨.forceCompacting, 4⟩ =
      (some .forcedCompactionInProgress, ⟨.forceCompacting, 4⟩) ∧
    acquireAppendLock ⟨.closing, 4⟩ = (some .tsdbClosing, ⟨.closing, 4⟩) ∧
    acquireAppendLock ⟨.closed, 4⟩ = (some .tsdbNotActive, ⟨.closed, 4⟩) :=
  ⟨state_conflict_rejections.1 .activeShipping 7200000 (fun _ _ => false) [5]
      (by decide),
    (state_conflict_rejections.2 ⟨.forceCompacting, 4⟩).1 rfl,
    (state_conflict_rejections.2 ⟨.closing, 4⟩).2.1 rfl,
    (state_conflict_rejections.2 ⟨.closed, 4⟩).2.2 rfl⟩

/-- Claim C5: `shouldCloseTSDB` evaluates its conditions in strict
order, short-circuiting on the first match: deletion mark found implies
closeable regardless of idle time; otherwise not idle implies not
closeable; otherwise head-only mode implies closeable; otherwise a
positive head series count implies not closeable; otherwise a local
block absent from the shipped-block cache implies not closeable (each
block's ULID carrying its positive creation timestamp); otherwise
closeable. -/
theorem shouldCloseTSDB_order (u : UserTSDB) (now idleTimeout : Nat) :
    (u.deletionMarkFound = true →
      shouldCloseTSDB u now idleTimeout = .tenantMarkedForDeletion ∧
      (shouldCloseTSDB u now idleTimeout).shouldClose = true) ∧
    (u.deletionMarkFound = false → ¬ (u.lastUpdate + idleTimeout < now) →
      shouldCloseTSDB u now idleTimeout = .notIdle ∧
      (shouldCloseTSDB u now idleTimeout).shouldClose = false) ∧
    (u.deletionMarkFound = false → u.lastUpdate + idleTimeout < now →
      u.headOnly = true →
      shouldCloseTSDB u now idleTimeout = .idle ∧
      (shouldCloseTSDB u now idleTimeout).shouldClose = true) ∧
    (u.deletionMarkFound = false → u.lastUpdate + idleTimeout < now →
      u.headOnly = false → 0 < u.headNumSeries →
      shouldCloseTSDB u now idleTimeout = .notCompacted ∧
      (shouldCloseTSDB u now idleTimeout).shouldClose = false) ∧
    (u.deletionMarkFound = false → u.lastUpdate + idleTimeout < now →
      u.headOnly = false → u.headNumSeries = 0 →
      (∀ b ∈ u.blocks, b ∉ u.shippedCache → 0 < b.time) →
      (∃ b ∈ u.blocks, b ∉ u.shippedCache) →
      shouldCloseTSDB u now idleTimeout = .notShipped ∧
      (shouldCloseTSDB u now idleTimeout).shouldClose = false) ∧
    (u.deletionMarkFound = false → u.lastUpdate + idleTimeout < now →
      u.headOnly = false → u.headNumSeries = 0 →
      (∀ b ∈ u.blocks, b ∈ u.shippedCache) →
      shouldCloseTSDB u now idleTimeout = .idle ∧
      (shouldCloseTSDB u now idleTimeout).shouldClose = true) := by
  refine ⟨?_, ?_, ?_, ?_, ?_, ?_⟩
  · intro h
    constructor <;> simp [shouldCloseTSDB, h, CloseResult.shouldClose]
  · intro h hni
    constructor <;> simp [shouldCloseTSDB, isIdle, h, hni, CloseResult.shouldClose]
  · intro h hi hh
    constructor <;> simp [shouldCloseTSDB, isIdle, h, hi, hh, CloseResult.shouldClose]
  · intro h hi hh hs
    constructor <;>
      simp [shouldCloseTSDB, isIdle, h, hi, hh, hs, CloseResult.shouldClose]
  · intro h hi hh hs hpos hex
    have hfold : 0 < getOldestUnshippedBlockTime u := by
      rw [getOldestUnshippedBlockTime, if_neg (by simp [hh])]
      exact oldestFold_pos u.shippedCache u.blocks 0 hpos (Or.inr hex)
    constructor <;>
      simp [shouldCloseTSDB, isIdle, h, hi, hh, hs, hfold, CloseResult.shouldClose]
  · intro h hi hh hs hall
    have hfold : getOldestUnshippedBlockTime u = 0 := by
      rw [getOldestUnshippedBlockTime, if_neg (by simp [hh])]
      exact oldestFold_all_shipped u.shippedCache u.blocks 0 hall
    constructor <;>
      simp [shouldCloseTSDB, isIdle, h, hi, hh, hs, hfold, CloseResult.shouldClose]

/-- Claim C5 witness: the six branches at concrete tenants; in the first
one the tenant was updated one second ago (`lastUpdate = 99`, `now =
100`, idle timeout 60) yet the deletion mark makes it closeable. -/
theorem shouldCloseTSDB_order_witness :
    (shouldCloseTSDB ⟨true, 99, false, 3, [], []⟩ 100 60 =
        .tenantMarkedForDeletion ∧
      (shouldCloseTSDB ⟨true, 99, false, 3, [], []⟩ 100 60).shouldClose = true) ∧
    (shouldCloseTSDB ⟨false, 99, false, 3, [], []⟩ 100 60 = .notIdle ∧
      (shouldCloseTSDB ⟨false, 99, false, 3, [], []⟩ 100 60).shouldClose = false) ∧
    (shouldCloseTSDB ⟨false, 10, true, 3, [], []⟩ 100 60 = .idle ∧
      (shouldCloseTSDB ⟨false, 10, true, 3, [], []⟩ 100 60).shouldClose = true) ∧
    (shouldCloseTSDB ⟨false, 10, false, 3, [], []⟩ 100 60 = .notCompacted ∧
      (shouldCloseTSDB ⟨false, 10, false, 3, [], []⟩ 100 60).shouldClose = false) ∧
    (shouldCloseTSDB ⟨false, 10, false, 0, [⟨1, 11⟩], []⟩ 100 60 = .notShipped ∧
      (shouldCloseTSDB ⟨false, 10, false, 0, [⟨1, 11⟩], []⟩ 100 60).shouldClose
        = false) ∧
    (shouldCloseTSDB ⟨false, 10, false, 0, [⟨1, 11⟩], [⟨1, 11⟩]⟩ 100 60 = .idle ∧
      (shouldCloseTSDB ⟨false, 10, false, 0, [⟨1, 11⟩],
        [⟨1, 11⟩]⟩ 100 60).shouldClose = true) :=
  ⟨(shouldCloseTSDB_order ⟨true, 99, false, 3, [], []⟩ 100 60).1 rfl,
    (shouldCloseTSDB_order ⟨false, 99, false, 3, [], []⟩ 100 60).2.1 rfl
      (by decide),
    (shouldCloseTSDB_order ⟨false, 10, true, 3, [], []⟩ 100 60).2.2.1 rfl
      (by decide) rfl,
    (shouldCloseTSDB_order ⟨false, 10, false, 3, [], []⟩ 100 60).2.2.2.1 rfl
      (by decide) rfl (by decide),
    (shouldCloseTSDB_order ⟨false, 10, false, 0, [⟨1, 11⟩], []⟩ 100 60).2.2.2.2.1
      rfl (by decide) rfl rfl (by decide) ⟨⟨1, 11⟩, by decide⟩,
    (shouldCloseTSDB_order ⟨false, 10, false, 0, [⟨1, 11⟩],
        [⟨1, 11⟩]⟩ 100 60).2.2.2.2.2 rfl (by decide) rfl rfl
      (by decide)⟩

/-- Claim C1: a block whose metadata object already exists in the remote
store when Sync examines it, which is not previously shipped, has a
positive sample count and compaction level at most 1, is not uploaded,
is recorded in the new shipped record with the current timestamp, and
contributes to the returned shipped count (which counts exactly the
blocks shipped this pass). -/
theorem sync_remote_existing_not_reuploaded
    (env : SyncEnv) (prior : List (ULID × Nat)) (metas : List BlockMeta)
    (m : BlockMeta) (st' : SyncState)
    (hnd : (metas.map BlockMeta.ulid).Nodup)
    (hm : m ∈ metas)
    (hfresh : lookupTime prior m.ulid = none)
    (hs : 0 < m.numSamples)
    (hl : m.compactionLevel ≤ 1)
    (hex : env.bucketExists m.ulid = .ok true)
    (hdone : syncGo env prior initSyncState metas = .done st') :
    m.ulid ∉ st'.attempted ∧
    (m.ulid, env.now) ∈ st'.record ∧
    shipContrib env prior m = true ∧
    (sync env prior metas).shipped = metas.countP (shipContrib env prior) ∧
    1 ≤ (sync env prior metas).shipped ∧
    (sync env prior metas).files =
      some (writeShipperMetaFile ⟨shipperMetaVersion1, st'.record⟩) := by
  obtain ⟨h1, _h2, h3, _h4, h5⟩ := syncGo_done_spec env prior metas _ _ hdone
  have hs' : m.numSamples ≠ 0 := by omega
  have hcontrib : shipContrib env prior m = true := by
    simp [shipContrib, isFresh, isEligible, remotePresent, hfresh, hex, hs', hl]
  have hsync : (sync env prior metas).shipped = st'.shipped ∧
      (sync env prior metas).files =
        some (writeShipperMetaFile ⟨shipperMetaVersion1, st'.record⟩) := by
    simp only [sync, hdone]
    by_cases hue : st'.uploadErrs > 0 <;> simp [hue]
  refine ⟨?_, ?_, hcontrib, ?_, ?_, hsync.2⟩
  · intro hin
    rw [h5] at hin
    simp only [initSyncState, List.nil_append] at hin
    obtain ⟨m', hm', hul⟩ := List.mem_map.1 hin
    have hm'mem := (List.mem_filter.1 hm').1
    have hpred := (List.mem_filter.1 hm').2
    have : m' = m := List.inj_on_of_nodup_map hnd hm'mem hm hul
    rw [this] at hpred
    simp [attemptPred, remoteAbsent, hex] at hpred
  · rw [h3]
    simp only [initSyncState, List.nil_append]
    apply List.mem_filterMap.2
    refine ⟨m, hm, ?_⟩
    simp [recEntry, hfresh, isEligible, remotePresent, hs', hl, hex]
  · rw [hsync.1, h1]
    simp [initSyncState]
  · have hcount : 0 < metas.countP (shipContrib env prior) :=
      List.countP_pos_iff.2 ⟨m, hm, hcontrib⟩
    have heq : (sync env prior metas).shipped =
        metas.countP (shipContrib env prior) := by
      rw [hsync.1, h1]; simp [initSyncState]
    omega

/-- Claim C1 witness: one fresh eligible block whose meta object already
exists remotely, with an upload oracle that would fail: the block is not
uploaded, is recorded at the current time, and is counted as shipped. -/
theorem sync_remote_existing_not_reuploaded_witness :
    ULID.mk 1 10 ∉
      (SyncState.mk 1 0 [(⟨1, 10⟩, 100)] [⟨1, 10⟩] []).attempted ∧
    ((⟨1, 10⟩ : ULID), 100) ∈
      (SyncState.mk 1 0 [(⟨1, 10⟩, 100)] [⟨1, 10⟩] []).record ∧
    shipContrib ⟨fun _ => .ok true, fun _ => false, 100⟩ []
      ⟨⟨1, 10⟩, 0, 5, 1⟩ = true ∧
    (sync ⟨fun _ => .ok true, fun _ => false, 100⟩ []
      [⟨⟨1, 10⟩, 0, 5, 1⟩]).shipped =
      List.countP (shipContrib ⟨fun _ => .ok true, fun _ => false, 100⟩ [])
        [⟨⟨1, 10⟩, 0, 5, 1⟩] ∧
    1 ≤ (sync ⟨fun _ => .ok true, fun _ => false, 100⟩ []
      [⟨⟨1, 10⟩, 0, 5, 1⟩]).shipped ∧
    (sync ⟨fun _ => .ok true, fun _ => false, 100⟩ []
        [⟨⟨1, 10⟩, 0, 5, 1⟩]).files =
      some (writeShipperMetaFile ⟨shipperMetaVersion1, [(⟨1, 10⟩, 100)]⟩) :=
  sync_remote_existing_not_reuploaded
    ⟨fun _ => .ok true, fun _ => false, 100⟩ [] [⟨⟨1, 10⟩, 0, 5, 1⟩]
    ⟨⟨1, 10⟩, 0, 5, 1⟩ ⟨1, 0, [(⟨1, 10⟩, 100)], [⟨1, 10⟩], []⟩
    (by decide) (List.mem_cons_self _ _) rfl (by decide) (by decide) rfl rfl

/-- Claim C9: whenever Sync returns a nil error, both meta files have
been written: the current-format file carrying the version tag and the
block-ID-to-timestamp record, and the legacy-format file carrying the
version tag and the same blocks' ID list. -/
theorem sync_writes_both_meta_files
    (env : SyncEnv) (prior : List (ULID × Nat)) (metas : List BlockMeta)
    (herr : (sync env prior metas).error = none) :
    ∃ st, syncGo env prior initSyncState metas = .done st ∧
      (sync env prior metas).files =
        some (⟨shipperMetaVersion1, st.record⟩,
          ⟨shipperMetaVersion1, st.record.map Prod.fst⟩) := by
  cases hgo : syncGo env prior initSyncState metas with
  | abort st => simp [sync, hgo] at herr
  | done st =>
    refine ⟨st, rfl, ?_⟩
    by_cases hue : st.uploadErrs > 0
    · simp [sync, hgo, hue] at herr
    · simp [sync, hgo, hue, writeShipperMetaFile]

/-- Claim C9 witness: a successful one-block Sync writes both files with
matching contents. -/
theorem sync_writes_both_meta_files_witness :
    (sync ⟨fun _ => .ok false, fun _ => true, 100⟩ []
        [⟨⟨1, 10⟩, 0, 5, 1⟩]).error = none ∧
    ∃ st,
      syncGo ⟨fun _ => .ok false, fun _ => true, 100⟩ [] initSyncState
        [⟨⟨1, 10⟩, 0, 5, 1⟩] = .done st ∧
      (sync ⟨fun _ => .ok false, fun _ => true, 100⟩ []
          [⟨⟨1, 10⟩, 0, 5, 1⟩]).files =
        some (⟨shipperMetaVersion1, st.record⟩,
          ⟨shipperMetaVersion1, st.record.map Prod.fst⟩) :=
  ⟨rfl, sync_writes_both_meta_files ⟨fun _ => .ok false, fun _ => true, 100⟩ []
    [⟨⟨1, 10⟩, 0, 5, 1⟩] rfl⟩

/-- Claim C10: when the remote existence check errors on a block that
reaches it, Sync returns a shipped count of 0 together with the check
error — discarding whatever was shipped earlier in the same pass — and
does not persist the record built during the pass. -/
theorem sync_aborts_on_exists_error
    (env : SyncEnv) (prior : List (ULID × Nat)) (l1 l2 : List BlockMeta)
    (m : BlockMeta) (st : SyncState)
    (hpre : syncGo env prior initSyncState l1 = .done st)
    (hfresh : lookupTime prior m.ulid = none)
    (hs : 0 < m.numSamples)
    (hl : m.compactionLevel ≤ 1)
    (herr : env.bucketExists m.ulid = .error ()) :
    sync env prior (l1 ++ m :: l2) = ⟨0, some .checkExists, none⟩ := by
  have hs' : ¬ m.numSamples = 0 := by omega
  have hl' : ¬ m.compactionLevel > 1 := by omega
  have hgo : syncGo env prior initSyncState (l1 ++ m :: l2) =
      .abort { st with checked := st.checked ++ [m.ulid] } := by
    rw [syncGo_append env prior l1 (m :: l2) initSyncState, hpre]
    simp [syncGo, hfresh, hs', hl', herr]
  simp [sync, hgo]

/-- Claim C10 witness: block 1 is uploaded successfully, then block 2's
existence check errors; the whole pass reports 0 shipped with the check
error and no files are written, discarding block 1's progress. -/
theorem sync_aborts_on_exists_error_witness :
    sync ⟨fun u => if u.id = 2 then .error () else .ok false,
        fun _ => true, 100⟩ []
      ([⟨⟨1, 10⟩, 0, 5, 1⟩] ++ ⟨⟨2, 20⟩, 10, 5, 1⟩ :: [⟨⟨3, 30⟩, 20, 5, 1⟩]) =
      ⟨0, some .checkExists, none⟩ :=
  sync_aborts_on_exists_error
    ⟨fun u => if u.id = 2 then .error () else .ok false, fun _ => true, 100⟩
    [] [⟨⟨1, 10⟩, 0, 5, 1⟩] [⟨⟨3, 30⟩, 20, 5, 1⟩] ⟨⟨2, 20⟩, 10, 5, 1⟩
    ⟨1, 0, [(⟨1, 10⟩, 100)], [⟨1, 10⟩], [⟨1, 10⟩]⟩
    rfl rfl (by decide) (by decide) rfl

/-- Claim C2: over a pass of fresh, eligible, remotely-absent blocks in
which some uploads succeed and some fail, Sync continues past each
failure: it returns the count of successful uploads together with an
error carrying the failure count, and the record it persists contains
exactly the successfully uploaded blocks. -/
theorem sync_partial_failure_isolation
    (env : SyncEnv) (prior : List (ULID × Nat)) (metas : List BlockMeta)
    (hnd : (metas.map BlockMeta.ulid).Nodup)
    (hall : ∀ m ∈ metas, lookupTime prior m.ulid = none ∧ 0 < m.numSamples ∧
      m.compactionLevel ≤ 1 ∧ env.bucketExists m.ulid = .ok false)
    (hfail : ∃ m ∈ metas, env.uploadOK m.ulid = false) :
    (sync env prior metas).shipped =
      metas.countP (fun m => env.uploadOK m.ulid) ∧
    (sync env prior metas).error =
      some (.syncFailed (metas.countP (fun m => !env.uploadOK m.ulid))) ∧
    ∃ st, syncGo env prior initSyncState metas = .done st ∧
      st.record = (metas.filter (fun m => env.uploadOK m.ulid)).map
        (fun m => (m.ulid, env.now)) ∧
      (sync env prior metas).files =
        some (writeShipperMetaFile ⟨shipperMetaVersion1, st.record⟩) ∧
      (∀ m ∈ metas, env.uploadOK m.ulid = true → (m.ulid, env.now) ∈ st.record) ∧
      (∀ m ∈ metas, env.uploadOK m.ulid = false → ∀ t, (m.ulid, t) ∉ st.record) := by
  obtain ⟨st, hdone⟩ := syncGo_no_abort env prior metas initSyncState
    (fun m hm _ e hex => by rw [(hall m hm).2.2.2] at hex; cases hex)
  obtain ⟨h1, h2, h3, _h4, _h5⟩ := syncGo_done_spec env prior metas _ _ hdone
  have hship : ∀ m ∈ metas, shipContrib env prior m = env.uploadOK m.ulid := by
    intro m hm
    obtain ⟨ha, hb, hc, hd⟩ := hall m hm
    have hb' : m.numSamples ≠ 0 := by omega
    simp [shipContrib, isFresh, isEligible, remotePresent, remoteAbsent,
      ha, hb', hc, hd]
  have hfailc : ∀ m ∈ metas, failContrib env prior m = !env.uploadOK m.ulid := by
    intro m hm
    obtain ⟨ha, hb, hc, hd⟩ := hall m hm
    have hb' : m.numSamples ≠ 0 := by omega
    simp [failContrib, isFresh, isEligible, remoteAbsent, ha, hb', hc, hd]
  have hrec : st.record = (metas.filter (fun m => env.uploadOK m.ulid)).map
      (fun m => (m.ulid, env.now)) := by
    rw [h3]
    simp only [initSyncState, List.nil_append]
    have hcongr : metas.filterMap (recEntry env prior) =
        metas.filterMap (fun m =>
          if env.uploadOK m.ulid then some (m.ulid, env.now) else none) := by
      apply List.filterMap_congr
      intro m hm
      obtain ⟨ha, hb, hc, hd⟩ := hall m hm
      have hb' : m.numSamples ≠ 0 := by omega
      by_cases hup : env.uploadOK m.ulid <;>
        simp [recEntry, ha, isEligible, remotePresent, remoteAbsent,
          hb', hc, hd, hup]
    rw [hcongr]
    exact filterMap_guard_eq_map_filter _ _ metas
  have hcount : st.shipped = metas.countP (fun m => env.uploadOK m.ulid) := by
    rw [h1]
    simp only [initSyncState, Nat.zero_add]
    exact List.countP_congr (fun m hm => by rw [hship m hm])
  have herrs : st.uploadErrs = metas.countP (fun m => !env.uploadOK m.ulid) := by
    rw [h2]
    simp only [initSyncState, Nat.zero_add]
    exact List.countP_congr (fun m hm => by rw [hfailc m hm])
  have hpos : 0 < st.uploadErrs := by
    rw [herrs]
    obtain ⟨m, hm, hup⟩ := hfail
    exact List.countP_pos_iff.2 ⟨m, hm, by simp [hup]⟩
  have hsync : (sync env prior metas).shipped = st.shipped ∧
      (sync env prior metas).error = some (.syncFailed st.uploadErrs) ∧
      (sync env prior metas).files =
        some (writeShipperMetaFile ⟨shipperMetaVersion1, st.record⟩) := by
    simp [sync, hdone, hpos]
  refine ⟨by rw [hsync.1, hcount], by rw [hsync.2.1, herrs], st, hdone, hrec,
    hsync.2.2, ?_, ?_⟩
  · intro m hm hup
    rw [hrec]
    exact List.mem_map.2 ⟨m, List.mem_filter.2 ⟨hm, by simp [hup]⟩, rfl⟩
  · intro m hm hup t hmem
    rw [hrec] at hmem
    obtain ⟨m', hm', heq⟩ := List.mem_map.1 hmem
    have hm'mem := (List.mem_filter.1 hm').1
    have hm'up := (List.mem_filter.1 hm').2
    have hul : m'.ulid = m.ulid := congrArg Prod.fst heq
    have : m' = m := List.inj_on_of_nodup_map hnd hm'mem hm hul
    rw [this] at hm'up
    rw [hup] at hm'up
    cases hm'up

/-- Claim C2 witness: blocks B1, B2, B3 with B2's upload failing: Sync
returns 2 shipped and an error naming one failure, and the record holds
B1 and B3 but not B2. -/
theorem sync_partial_failure_isolation_witness :
    (sync ⟨fun _ => .ok false, fun u => u.id ≠ 2, 100⟩ []
      ([⟨⟨1, 10⟩, 0, 5, 1⟩, ⟨⟨2, 20⟩, 10, 5, 1⟩, ⟨⟨3, 30⟩, 20, 5, 1⟩] :
        List BlockMeta)).shipped =
      List.countP (fun m : BlockMeta => (⟨fun _ => .ok false,
        fun u => u.id ≠ 2, 100⟩ : SyncEnv).uploadOK m.ulid)
        [⟨⟨1, 10⟩, 0, 5, 1⟩, ⟨⟨2, 20⟩, 10, 5, 1⟩, ⟨⟨3, 30⟩, 20, 5, 1⟩] ∧
    (sync ⟨fun _ => .ok false, fun u => u.id ≠ 2, 100⟩ []
      ([⟨⟨1, 10⟩, 0, 5, 1⟩, ⟨⟨2, 20⟩, 10, 5, 1⟩, ⟨⟨3, 30⟩, 20, 5, 1⟩] :
        List BlockMeta)).error =
      some (.syncFailed (List.countP (fun m : BlockMeta =>
        !(⟨fun _ => .ok false, fun u => u.id ≠ 2, 100⟩ : SyncEnv).uploadOK
          m.ulid)
        [⟨⟨1, 10⟩, 0, 5, 1⟩, ⟨⟨2, 20⟩, 10, 5, 1⟩, ⟨⟨3, 30⟩, 20, 5, 1⟩])) ∧
    ∃ st, syncGo ⟨fun _ => .ok false, fun u => u.id ≠ 2, 100⟩ [] initSyncState
        ([⟨⟨1, 10⟩, 0, 5, 1⟩, ⟨⟨2, 20⟩, 10, 5, 1⟩, ⟨⟨3, 30⟩, 20, 5, 1⟩] :
          List BlockMeta) =
        .done st ∧
      st.record = (List.filter (fun m : BlockMeta =>
          (⟨fun _ => .ok false, fun u => u.id ≠ 2, 100⟩ : SyncEnv).uploadOK
            m.ulid)
          [⟨⟨1, 10⟩, 0, 5, 1⟩, ⟨⟨2, 20⟩, 10, 5, 1⟩, ⟨⟨3, 30⟩, 20, 5, 1⟩]).map
        (fun m => (m.ulid, 100)) ∧
      (sync ⟨fun _ => .ok false, fun u => u.id ≠ 2, 100⟩ []
          ([⟨⟨1, 10⟩, 0, 5, 1⟩, ⟨⟨2, 20⟩, 10, 5, 1⟩, ⟨⟨3, 30⟩, 20, 5, 1⟩] :
            List BlockMeta)).files =
        some (writeShipperMetaFile ⟨shipperMetaVersion1, st.record⟩) ∧
      (∀ m ∈ ([⟨⟨1, 10⟩, 0, 5, 1⟩, ⟨⟨2, 20⟩, 10, 5, 1⟩,
          ⟨⟨3, 30⟩, 20, 5, 1⟩] : List BlockMeta),
        (⟨fun _ => .ok false, fun u => u.id ≠ 2, 100⟩ : SyncEnv).uploadOK
            m.ulid = true →
          (m.ulid, 100) ∈ st.record) ∧
      (∀ m ∈ ([⟨⟨1, 10⟩, 0, 5, 1⟩, ⟨⟨2, 20⟩, 10, 5, 1⟩,
          ⟨⟨3, 30⟩, 20, 5, 1⟩] : List BlockMeta),
        (⟨fun _ => .ok false, fun u => u.id ≠ 2, 100⟩ : SyncEnv).uploadOK
            m.ulid = false →
          ∀ t, (m.ulid, t) ∉ st.record) :=
  sync_partial_failure_isolation
    ⟨fun _ => .ok false, fun u => u.id ≠ 2, 100⟩ []
    [⟨⟨1, 10⟩, 0, 5, 1⟩, ⟨⟨2, 20⟩, 10, 5, 1⟩, ⟨⟨3, 30⟩, 20, 5, 1⟩]
    (by decide)
    (by intro m hm; fin_cases hm <;> exact ⟨rfl, by decide, by decide, rfl⟩)
    ⟨⟨⟨2, 20⟩, 10, 5, 1⟩, by simp, by decide⟩

/-- Claim C6: after a fully successful Sync pass (nil error), a second
Sync over the same local blocks returns 0 shipped and no error, performs
no remote existence checks and no uploads whatsoever the second
environment does, and carries every previously recorded block forward
into the new record with its original timestamp. -/
theorem sync_idempotent_second_run
    (env1 env2 : SyncEnv) (prior : List (ULID × Nat)) (metas : List BlockMeta)
    (st1 : SyncState)
    (hdone : syncGo env1 prior initSyncState metas = .done st1)
    (herr : (sync env1 prior metas).error = none) :
    (sync env2 st1.record metas).shipped = 0 ∧
    (sync env2 st1.record metas).error = none ∧
    ∃ st2, syncGo env2 st1.record initSyncState metas = .done st2 ∧
      st2.checked = [] ∧ st2.attempted = [] ∧
      ∀ m ∈ metas, ∀ t, lookupTime st1.record m.ulid = some t →
        (m.ulid, t) ∈ st2.record := by
  have hue : ¬ st1.uploadErrs > 0 := by
    intro h
    simp [sync, hdone, h] at herr
  obtain ⟨h1, h2, h3, _h4, _h5⟩ := syncGo_done_spec env1 prior metas _ _ hdone
  have hnofail : ∀ m ∈ metas, failContrib env1 prior m = false := by
    have : metas.countP (failContrib env1 prior) = 0 := by
      simp only [initSyncState] at h2
      omega
    intro m hm
    have := List.countP_eq_zero.1 this m hm
    simpa using this
  have hkey : ∀ m ∈ metas, isEligible m = true →
      ∃ t, lookupTime st1.record m.ulid = some t := by
    intro m hm helig
    cases hfresh : lookupTime prior m.ulid with
    | some t =>
      have hment : (m.ulid, t) ∈ st1.record := by
        rw [h3]
        simp only [initSyncState, List.nil_append]
        exact List.mem_filterMap.2 ⟨m, hm, by simp [recEntry, hfresh]⟩
      exact mem_lookupTime hment
    | none =>
      have hcp : checkPred prior m = true := by
        simp [checkPred, isFresh, hfresh, helig]
      cases hex : env1.bucketExists m.ulid with
      | error e =>
        exact absurd hex
          (syncGo_done_no_exists_error env1 prior metas _ _ hdone m hm hcp e)
      | ok b =>
        cases b with
        | true =>
          have hment : (m.ulid, env1.now) ∈ st1.record := by
            rw [h3]
            simp only [initSyncState, List.nil_append]
            exact List.mem_filterMap.2 ⟨m, hm,
              by simp [recEntry, hfresh, helig, remotePresent, hex]⟩
          exact mem_lookupTime hment
        | false =>
          have hup1 : env1.uploadOK m.ulid = true := by
            have := hnofail m hm
            simp [failContrib, isFresh, hfresh, helig, remoteAbsent, hex]
              at this
            exact this
          have hment : (m.ulid, env1.now) ∈ st1.record := by
            rw [h3]
            simp only [initSyncState, List.nil_append]
            exact List.mem_filterMap.2 ⟨m, hm,
              by simp [recEntry, hfresh, helig, remotePresent, remoteAbsent,
                hex, hup1]⟩
          exact mem_lookupTime hment
  have hnocheck : ∀ m ∈ metas, checkPred st1.record m = false := by
    intro m hm
    by_cases helig : isEligible m = true
    · obtain ⟨t, hlk⟩ := hkey m hm helig
      simp [checkPred, isFresh, hlk]
    · have : isEligible m = false := by simpa using helig
      simp [checkPred, this]
  obtain ⟨st2, hdone2⟩ := syncGo_no_abort env2 st1.record metas initSyncState
    (fun m hm hcp => by rw [hnocheck m hm] at hcp; cases hcp)
  obtain ⟨g1, g2, g3, g4, g5⟩ := syncGo_done_spec env2 st1.record metas _ _ hdone2
  have hship2 : ∀ m ∈ metas, shipContrib env2 st1.record m = false := by
    intro m hm
    have hcp := hnocheck m hm
    simp only [checkPred] at hcp
    simp only [shipContrib, hcp, Bool.false_and]
  have hfail2 : ∀ m ∈ metas, failContrib env2 st1.record m = false := by
    intro m hm
    have hcp := hnocheck m hm
    simp only [checkPred] at hcp
    simp only [failContrib, hcp, Bool.false_and]
  have hcp2 : ∀ m ∈ metas, ¬ checkPred st1.record m = true := by
    intro m hm
    rw [hnocheck m hm]
    simp
  have hap2 : ∀ m ∈ metas, ¬ attemptPred env2 st1.record m = true := by
    intro m hm h
    have hcp := hnocheck m hm
    simp only [checkPred] at hcp
    simp only [attemptPred, hcp, Bool.false_and] at h
    cases h
  have hshipped2 : st2.shipped = 0 := by
    rw [g1]
    simp only [initSyncState, Nat.zero_add]
    exact List.countP_eq_zero.2 (fun m hm => by simp [hship2 m hm])
  have herrs2 : st2.uploadErrs = 0 := by
    rw [g2]
    simp only [initSyncState, Nat.zero_add]
    exact List.countP_eq_zero.2 (fun m hm => by simp [hfail2 m hm])
  have hchk2 : st2.checked = [] := by
    rw [g4]
    simp only [initSyncState, List.nil_append]
    rw [List.filter_eq_nil_iff.2 hcp2]
    rfl
  have hatt2 : st2.attempted = [] := by
    rw [g5]
    simp only [initSyncState, List.nil_append]
    rw [List.filter_eq_nil_iff.2 hap2]
    rfl
  have hsync2 : (sync env2 st1.record metas).shipped = st2.shipped ∧
      (sync env2 st1.record metas).error = none := by
    have : ¬ st2.uploadErrs > 0 := by omega
    simp [sync, hdone2, this]
  refine ⟨by rw [hsync2.1, hshipped2], hsync2.2, st2, hdone2, hchk2, hatt2, ?_⟩
  intro m hm t hlk
  rw [g3]
  simp only [initSyncState, List.nil_append]
  exact List.mem_filterMap.2 ⟨m, hm, by simp [recEntry, hlk]⟩

/-- Claim C6 witness: a successful first pass uploads block 1; a second
pass under an environment whose existence checks would all fail returns
0 shipped, no error, touches the bucket not at all and carries block 1's
original timestamp forward. -/
theorem sync_idempotent_second_run_witness :
    (sync ⟨fun _ => .error (), fun _ => false, 200⟩
      [(⟨1, 10⟩, 100)] [⟨⟨1, 10⟩, 0, 5, 1⟩]).shipped = 0 ∧
    (sync ⟨fun _ => .error (), fun _ => false, 200⟩
      [(⟨1, 10⟩, 100)] [⟨⟨1, 10⟩, 0, 5, 1⟩]).error = none ∧
    ∃ st2, syncGo ⟨fun _ => .error (), fun _ => false, 200⟩
        [(⟨1, 10⟩, 100)] initSyncState [⟨⟨1, 10⟩, 0, 5, 1⟩] = .done st2 ∧
      st2.checked = [] ∧ st2.attempted = [] ∧
      ∀ m ∈ [(⟨⟨1, 10⟩, 0, 5, 1⟩ : BlockMeta)], ∀ t,
        lookupTime [(⟨1, 10⟩, 100)] m.ulid = some t →
          (m.ulid, t) ∈ st2.record := by
  have h := sync_idempotent_second_run
    ⟨fun _ => .ok false, fun _ => true, 100⟩
    ⟨fun _ => .error (), fun _ => false, 200⟩
    [] [⟨⟨1, 10⟩, 0, 5, 1⟩]
    ⟨1, 0, [(⟨1, 10⟩, 100)], [⟨1, 10⟩], [⟨1, 10⟩]⟩
    rfl rfl
  exact h

/-- A ULID all of whose occurrences in the meta list are filtered out
(zero samples or compaction level above 1) never reaches the upload
call, in completed and aborted passes alike. -/
theorem syncGo_never_uploads (env : SyncEnv) (prior : List (ULID × Nat))
    (u : ULID) :
    ∀ (metas : List BlockMeta) (st : SyncState),
      (∀ m ∈ metas, m.ulid = u → m.numSamples = 0 ∨ m.compactionLevel > 1) →
      u ∉ st.attempted →
      u ∉ (syncGo env prior st metas).state.attempted := by
  intro metas
  induction metas with
  | nil =>
    intro st _ hst
    simpa [syncGo, SyncPass.state] using hst
  | cons m rest ih =>
    intro st h hst
    have hrest : ∀ m' ∈ rest, m'.ulid = u →
        m'.numSamples = 0 ∨ m'.compactionLevel > 1 :=
      fun m' hm' => h m' (List.mem_cons.2 (Or.inr hm'))
    simp only [syncGo]
    cases hlk : lookupTime prior m.ulid with
    | some t => exact ih _ hrest hst
    | none =>
      by_cases hs : m.numSamples = 0
      · rw [if_pos hs]; exact ih _ hrest hst
      · rw [if_neg hs]
        by_cases hl : m.compactionLevel > 1
        · rw [if_pos hl]; exact ih _ hrest hst
        · rw [if_neg hl]
          have hne : ¬ m.ulid = u := by
            intro he
            rcases h m (List.mem_cons.2 (Or.inl rfl)) he with h0 | h0
            · exact hs h0
            · exact hl h0
          cases hex : env.bucketExists m.ulid with
          | error e => simpa [SyncPass.state] using hst
          | ok b =>
            cases b with
            | true => exact ih _ hrest hst
            | false =>
              have hnotin : u ∉ st.attempted ++ [m.ulid] := by
                intro hmem
                rcases List.mem_append.1 hmem with h0 | h0
                · exact hst h0
                · simp at h0
                  exact hne h0.symm
              by_cases hup : env.uploadOK m.ulid
              · rw [if_pos hup]; exact ih _ hrest hnotin
              · rw [if_neg hup]; exact ih _ hrest hnotin

/-- Claim C7: a block with zero samples (not previously shipped) is
never uploaded in any single pass — completed or aborted — and never
enters the persisted shipped record across any number of Sync passes;
and a block with compaction level above 1 is never uploaded by this
path. -/
theorem sync_filters_empty_and_compacted (metas : List BlockMeta) (u : ULID) :
    ((∀ m ∈ metas, m.ulid = u → m.numSamples = 0) →
      (∀ (env : SyncEnv) (p : List (ULID × Nat)) (st : SyncState),
        u ∉ st.attempted → u ∉ (syncGo env p st metas).state.attempted) ∧
      (∀ (envs : Nat → SyncEnv) (prior : List (ULID × Nat)),
        (∀ t, (u, t) ∉ prior) →
        ∀ n t, (u, t) ∉ syncIter envs metas prior n)) ∧
    ((∀ m ∈ metas, m.ulid = u → m.compactionLevel > 1) →
      ∀ (env : SyncEnv) (p : List (ULID × Nat)) (st : SyncState),
        u ∉ st.attempted → u ∉ (syncGo env p st metas).state.attempted) := by
  refine ⟨fun hempty => ⟨?_, ?_⟩, fun hlevel => ?_⟩
  · intro env p st hst
    exact syncGo_never_uploads env p u metas st
      (fun m hm he => Or.inl (hempty m hm he)) hst
  · intro envs prior hp n
    induction n with
    | zero => exact hp
    | succ n ihn =>
      intro t hmem
      rw [syncIter] at hmem
      cases hgo : syncGo (envs n) (syncIter envs metas prior n) initSyncState
          metas with
      | abort st =>
        simp only [syncPassRecord, hgo] at hmem
        exact ihn t hmem
      | done st =>
        simp only [syncPassRecord, hgo] at hmem
        obtain ⟨_, _, h3, _, _⟩ :=
          syncGo_done_spec (envs n) (syncIter envs metas prior n) metas _ _ hgo
        rw [h3] at hmem
        simp only [initSyncState, List.nil_append] at hmem
        obtain ⟨m', hm', hrec⟩ := List.mem_filterMap.1 hmem
        cases hlk : lookupTime (syncIter envs metas prior n) m'.ulid with
        | some t' =>
          rw [recEntry, hlk] at hrec
          have hul : m'.ulid = u := congrArg Prod.fst (Option.some.inj hrec)
          have ht' : t' = t := congrArg Prod.snd (Option.some.inj hrec)
          rw [hul] at hlk
          rw [ht'] at hlk
          exact ihn t (lookupTime_mem hlk)
        | none =>
          rw [recEntry, hlk] at hrec
          by_cases hcond : (isEligible m' &&
              (remotePresent (envs n) m' ||
                (remoteAbsent (envs n) m' &&
                  (envs n).uploadOK m'.ulid))) = true
          · rw [if_pos hcond] at hrec
            have hul : m'.ulid = u := congrArg Prod.fst (Option.some.inj hrec)
            have h0 : m'.numSamples = 0 := hempty m' hm' hul
            simp [isEligible, h0] at hcond
          · rw [if_neg hcond] at hrec
            cases hrec
  · intro env p st hst
    exact syncGo_never_uploads env p u metas st
      (fun m hm he => Or.inr (hlevel m hm he)) hst

/-- Claim C7 witness: an empty block (0 samples) is not uploaded and is
absent from the record even after three Sync passes, and a level-2 block
is not uploaded. -/
theorem sync_filters_empty_and_compacted_witness :
    ULID.mk 7 70 ∉ (syncGo ⟨fun _ => .ok false, fun _ => true, 100⟩ []
      initSyncState [⟨⟨7, 70⟩, 0, 0, 1⟩]).state.attempted ∧
    ((⟨7, 70⟩ : ULID), 100) ∉ syncIter
      (fun _ => ⟨fun _ => .ok false, fun _ => true, 100⟩)
      [⟨⟨7, 70⟩, 0, 0, 1⟩] [] 3 ∧
    ULID.mk 8 80 ∉ (syncGo ⟨fun _ => .ok false, fun _ => true, 100⟩ []
      initSyncState [⟨⟨8, 80⟩, 0, 5, 2⟩]).state.attempted :=
  ⟨((sync_filters_empty_and_compacted [⟨⟨7, 70⟩, 0, 0, 1⟩] ⟨7, 70⟩).1
      (by decide)).1 ⟨fun _ => .ok false, fun _ => true, 100⟩ [] initSyncState
      (by decide),
    ((sync_filters_empty_and_compacted [⟨⟨7, 70⟩, 0, 0, 1⟩] ⟨7, 70⟩).1
      (by decide)).2 (fun _ => ⟨fun _ => .ok false, fun _ => true, 100⟩) []
      (by simp) 3 100,
    (sync_filters_empty_and_compacted [⟨⟨8, 80⟩, 0, 5, 2⟩] ⟨8, 80⟩).2
      (by decide) ⟨fun _ => .ok false, fun _ => true, 100⟩ [] initSyncState
      (by decide)⟩

/-- Structural specification of the failure-free splitting loop: no
error is reported; the emitted ranges are non-empty; every range but the
last ends exactly at an alignment boundary minus one; the first range
starts at the head's min time; the last range ends at the head's max
time and lies within a single alignment bucket; the ranges are strictly
increasing and disjoint; and every sample is covered by some range. -/
theorem compactLoop_spec (d : Nat) (hd : 0 < d) :
    ∀ (n : Nat) (s : List Nat), s.length ≤ n → s ≠ [] →
      (compactLoop d (fun _ _ => false) s).2.1 = false ∧
      (compactLoop d (fun _ _ => false) s).1 ≠ [] ∧
      (∀ r ∈ (compactLoop d (fun _ _ => false) s).1.dropLast,
        r.2 + 1 = (r.1 / d + 1) * d) ∧
      (∃ r0, (compactLoop d (fun _ _ => false) s).1.head? = some r0 ∧
        r0.1 = minT s) ∧
      (∃ rl, (compactLoop d (fun _ _ => false) s).1.getLast? = some rl ∧
        rl.2 = maxT s ∧ (rl.1 / d) * d = (rl.2 / d) * d) ∧
      List.Chain' (fun a b => a.2 < b.1) (compactLoop d (fun _ _ => false) s).1 ∧
      (∀ t ∈ s, ∃ r ∈ (compactLoop d (fun _ _ => false) s).1,
        r.1 ≤ t ∧ t ≤ r.2) := by
  intro n
  induction n with
  | zero =>
    intro s hlen hne
    cases s with
    | nil => exact absurd rfl hne
    | cons x xs => simp at hlen
  | succ n ih =>
    intro s hlen hne
    by_cases hcond : s ≠ [] ∧ (minT s / d) * d ≠ (maxT s / d) * d
    · have hstep : compactLoop d (fun _ _ => false) s =
          ((minT s, (minT s / d + 1) * d - 1) ::
            (compactLoop d (fun _ _ => false)
              (s.filter (fun t =>
                decide ((minT s / d + 1) * d - 1 < t)))).1,
            (compactLoop d (fun _ _ => false)
              (s.filter (fun t =>
                decide ((minT s / d + 1) * d - 1 < t)))).2.1,
            (compactLoop d (fun _ _ => false)
              (s.filter (fun t =>
                decide ((minT s / d + 1) * d - 1 < t)))).2.2) := by
        rw [compactLoop, dif_pos hcond]
        rfl
      have hmn_mem : minT s ∈ s := minT_mem hne
      have hmx_mem : maxT s ∈ s := maxT_mem hne
      have hbound := lt_boundary (minT s) hd
      have hb : minT s ≤ (minT s / d + 1) * d - 1 := by omega
      have hdiv : minT s / d < maxT s / d := by
        have hle : minT s ≤ maxT s := minT_le hmx_mem
        have h1 : minT s / d ≤ maxT s / d := Nat.div_le_div_right hle
        rcases Nat.lt_or_ge (minT s / d) (maxT s / d) with h2 | h2
        · exact h2
        · exact absurd (by omega : minT s / d = maxT s / d)
            (fun he => hcond.2 (by rw [he]))
      have hbmax_lt : (minT s / d + 1) * d - 1 < maxT s := by
        have h1 : (minT s / d + 1) * d ≤ (maxT s / d) * d :=
          Nat.mul_le_mul_right d hdiv
        have h2 : (maxT s / d) * d ≤ maxT s := Nat.div_mul_le_self _ _
        omega
      have hmx_mem' : maxT s ∈ s.filter (fun t =>
          decide ((minT s / d + 1) * d - 1 < t)) :=
        List.mem_filter.2 ⟨hmx_mem, by simpa using hbmax_lt⟩
      have hne' : s.filter (fun t =>
          decide ((minT s / d + 1) * d - 1 < t)) ≠ [] :=
        List.ne_nil_of_mem hmx_mem'
      have hlen' : (s.filter (fun t =>
          decide ((minT s / d + 1) * d - 1 < t))).length ≤ n := by
        have hstrict : (s.filter (fun t =>
            decide ((minT s / d + 1) * d - 1 < t))).length < s.length :=
          List.length_filter_lt_length_iff_exists.2
            ⟨minT s, hmn_mem, by simpa using by omega⟩
        omega
      have hmax' : maxT (s.filter (fun t =>
          decide ((minT s / d + 1) * d - 1 < t))) = maxT s := by
        apply Nat.le_antisymm
        · exact le_maxT (List.mem_of_mem_filter (maxT_mem hne'))
        · exact le_maxT hmx_mem'
      have hmin' : (minT s / d + 1) * d - 1 < minT (s.filter (fun t =>
          decide ((minT s / d + 1) * d - 1 < t))) := by
        have := List.mem_filter.1 (minT_mem hne')
        simpa using this.2
      obtain ⟨ih1, ih2, ih3, ⟨r0, hr0, hr0fst⟩, ⟨rl, hrl, hrlsnd, hrlbk⟩,
        ih6, ih7⟩ := ih _ hlen' hne'
      rw [hstep]
      refine ⟨ih1, by simp, ?_, ?_, ?_, ?_, ?_⟩
      · intro r hr
        rw [List.dropLast_cons_of_ne_nil ih2] at hr
        rcases List.mem_cons.1 hr with h0 | h0
        · rw [h0]
          simp only
          omega
        · exact ih3 r h0
      · exact ⟨(minT s, (minT s / d + 1) * d - 1), rfl, rfl⟩
      · refine ⟨rl, ?_, by rw [hrlsnd, hmax'], hrlbk⟩
        rw [List.getLast?_cons, hrl]
        rfl
      · apply List.chain'_cons'.2
        refine ⟨?_, ih6⟩
        intro y hy
        rw [hr0] at hy
        simp at hy
        rw [← hy, hr0fst]
        exact hmin'
      · intro t ht
        by_cases hbt : (minT s / d + 1) * d - 1 < t
        · obtain ⟨r, hr, hr1, hr2⟩ := ih7 t
            (List.mem_filter.2 ⟨ht, by simpa using hbt⟩)
          exact ⟨r, List.mem_cons.2 (Or.inr hr), hr1, hr2⟩
        · exact ⟨(minT s, (minT s / d + 1) * d - 1),
            List.mem_cons.2 (Or.inl rfl), minT_le ht, by omega⟩
    · have hbk : (minT s / d) * d = (maxT s / d) * d := by
        by_contra hbk
        exact hcond ⟨hne, hbk⟩
      have hstep : compactLoop d (fun _ _ => false) s =
          ([(minT s, maxT s)], false,
            s.filter (fun t => decide (maxT s < t))) := by
        rw [compactLoop, dif_neg hcond]
        rfl
      rw [hstep]
      refine ⟨rfl, by simp, by simp, ⟨(minT s, maxT s), rfl, rfl⟩,
        ⟨(minT s, maxT s), rfl, rfl, hbk⟩, List.chain'_singleton _, ?_⟩
      intro t ht
      exact ⟨(minT s, maxT s), List.mem_cons.2 (Or.inl rfl),
        minT_le ht, le_maxT ht⟩

/-- Claim C8: when forced compaction runs from the `active` state on a
non-head-only tenant with a non-empty head and a positive block
duration, the state is restored to `active` on exit under any failure
oracle; and in the failure-free run no error is returned and the ranges
handed to `CompactHead` split the head's time span into aligned windows:
all ranges but the last end at an alignment boundary minus one, the
first starts at the head's min time, the last ends at the head's max
time within a single bucket, the ranges are disjoint and increasing, and
they cover every sample. -/
theorem compactHead_splits_aligned (d : Nat) (hd : 0 < d)
    (samples : List Nat) (hne : samples ≠ []) :
    (∀ compactFail : Nat → Nat → Bool,
      (compactHead false .active d compactFail samples).state = .active) ∧
    (compactHead false .active d (fun _ _ => false) samples).err = none ∧
    (compactHead false .active d (fun _ _ => false) samples).ranges ≠ [] ∧
    (∀ r ∈ (compactHead false .active d
        (fun _ _ => false) samples).ranges.dropLast,
      r.2 + 1 = (r.1 / d + 1) * d) ∧
    (∃ r0, (compactHead false .active d
        (fun _ _ => false) samples).ranges.head? = some r0 ∧
      r0.1 = minT samples) ∧
    (∃ rl, (compactHead false .active d
        (fun _ _ => false) samples).ranges.getLast? = some rl ∧
      rl.2 = maxT samples ∧ (rl.1 / d) * d = (rl.2 / d) * d) ∧
    List.Chain' (fun a b => a.2 < b.1)
      (compactHead false .active d (fun _ _ => false) samples).ranges ∧
    (∀ t ∈ samples, ∃ r ∈ (compactHead false .active d
        (fun _ _ => false) samples).ranges, r.1 ≤ t ∧ t ≤ r.2) := by
  obtain ⟨h1, h2, h3, h4, h5, h6, h7⟩ :=
    compactLoop_spec d hd samples.length samples le_rfl hne
  have hranges : (compactHead false .active d
      (fun _ _ => false) samples).ranges =
      (compactLoop d (fun _ _ => false) samples).1 := by
    simp [compactHead]
  have herr : (compactHead false .active d
      (fun _ _ => false) samples).err = none := by
    simp [compactHead, h1]
  refine ⟨?_, herr, ?_, ?_, ?_, ?_, ?_, ?_⟩
  · intro compactFail
    simp [compactHead]
  · rw [hranges]; exact h2
  · rw [hranges]; exact h3
  · rw [hranges]; exact h4
  · rw [hranges]; exact h5
  · rw [hranges]; exact h6
  · rw [hranges]; exact h7

/-- Claim C8 witness: block duration 10 over samples 3, 12, 27: the
state is restored even under an always-failing oracle; the failure-free
run reports no error, emits at least one range, starts its first range
at min time 3 and ends its last range at max time 27 inside one
alignment bucket. -/
theorem compactHead_splits_aligned_witness :
    (compactHead false .active 10 (fun _ _ => true) [3, 12, 27]).state =
      .active ∧
    (compactHead false .active 10 (fun _ _ => false) [3, 12, 27]).err =
      none ∧
    (compactHead false .active 10 (fun _ _ => false) [3, 12, 27]).ranges ≠
      [] ∧
    (∃ r0, (compactHead false .active 10
        (fun _ _ => false) [3, 12, 27]).ranges.head? = some r0 ∧
      r0.1 = minT [3, 12, 27]) ∧
    (∃ rl, (compactHead false .active 10
        (fun _ _ => false) [3, 12, 27]).ranges.getLast? = some rl ∧
      rl.2 = maxT [3, 12, 27] ∧ (rl.1 / 10) * 10 = (rl.2 / 10) * 10) :=
  ⟨(compactHead_splits_aligned 10 (by decide) [3, 12, 27] (by decide)).1
      (fun _ _ => true),
    (compactHead_splits_aligned 10 (by decide) [3, 12, 27] (by decide)).2.1,
    (compactHead_splits_aligned 10 (by decide) [3, 12, 27] (by decide)).2.2.1,
    (compactHead_splits_aligned 10 (by decide) [3, 12, 27]
      (by decide)).2.2.2.2.1,
    (compactHead_splits_aligned 10 (by decide) [3, 12, 27]
      (by decide)).2.2.2.2.2.1⟩

/-- Claim C3 counterexample: with the current-format file absent and the
legacy file present but unparsable, `readShippedBlocks` returns an error
to its caller, contradicting the claim that it never does. -/
theorem readShippedBlocks_error_counterexample :
    readShippedBlocks 50 ⟨.absent, .corrupt⟩ = .error .parseFailed := rfl

/-- Claim C3 (amended): reading tries the current-format file first and
returns its contents when well-formed; on any read, parse, or
version-mismatch failure it falls back to the legacy-format file; if the
legacy file is absent it returns an empty set; but if the legacy file is
present and unparsable, or carries an unexpected version, that error is
returned to the caller. -/
theorem readShippedBlocks_fallback_chain (now : Nat) (dir : TenantDir) :
    (∀ m, dir.mimirFile = .ok m → m.version = shipperMetaVersion1 →
      readShippedBlocks now dir = .ok m.shipped) ∧
    (∀ e, readShipperMetaFile dir = .error e →
      readShippedBlocks now dir = readThanosShippedBlocks now dir) ∧
    (∀ e, readShipperMetaFile dir = .error e → dir.thanosFile = .absent →
      readShippedBlocks now dir = .ok []) ∧
    (∀ e, readShipperMetaFile dir = .error e → dir.thanosFile = .corrupt →
      readShippedBlocks now dir = .error .parseFailed) ∧
    (∀ e m, readShipperMetaFile dir = .error e → dir.thanosFile = .ok m →
      m.version ≠ shipperMetaVersion1 →
      readShippedBlocks now dir = .error .badVersion) ∧
    (∀ e m, readShipperMetaFile dir = .error e → dir.thanosFile = .ok m →
      m.version = shipperMetaVersion1 →
      readShippedBlocks now dir = .ok (m.uploaded.map (fun b => (b, now)))) := by
  refine ⟨?_, ?_, ?_, ?_, ?_, ?_⟩
  · intro m hm hv
    simp [readShippedBlocks, readShipperMetaFile, hm, hv]
  · intro e he
    simp [readShippedBlocks, he]
  · intro e he ht
    simp [readShippedBlocks, he, readThanosShippedBlocks,
      readThanosShipperMetaFile, ht]
  · intro e he ht
    simp [readShippedBlocks, he, readThanosShippedBlocks,
      readThanosShipperMetaFile, ht]
  · intro e m he ht hv
    simp [readShippedBlocks, he, readThanosShippedBlocks,
      readThanosShipperMetaFile, ht, hv]
  · intro e m he ht hv
    simp [readShippedBlocks, he, readThanosShippedBlocks,
      readThanosShipperMetaFile, ht, hv]

/-- Claim C3 witness: the fallback chain exercised at concrete
directories: a good current file, a corrupt current file over a good
legacy file, and two missing files. -/
theorem readShippedBlocks_fallback_chain_witness :
    readShippedBlocks 50 ⟨.ok ⟨1, [(⟨9, 4⟩, 30)]⟩, .corrupt⟩ =
      .ok [(⟨9, 4⟩, 30)] ∧
    readShippedBlocks 50 ⟨.corrupt, .ok ⟨1, [⟨9, 4⟩]⟩⟩ =
      .ok [(⟨9, 4⟩, 50)] ∧
    readShippedBlocks 50 ⟨.absent, .absent⟩ = .ok [] ∧
    readShippedBlocks 50 ⟨.ok ⟨2, []⟩, .ok ⟨2, []⟩⟩ = .error .badVersion :=
  ⟨(readShippedBlocks_fallback_chain 50 ⟨.ok ⟨1, [(⟨9, 4⟩, 30)]⟩, .corrupt⟩).1
      ⟨1, [(⟨9, 4⟩, 30)]⟩ rfl rfl,
    (readShippedBlocks_fallback_chain 50
        ⟨.corrupt, .ok ⟨1, [⟨9, 4⟩]⟩⟩).2.2.2.2.2 .parseFailed ⟨1, [⟨9, 4⟩]⟩
      rfl rfl rfl,
    (readShippedBlocks_fallback_chain 50 ⟨.absent, .absent⟩).2.2.1 .notExist
      rfl rfl,
    (readShippedBlocks_fallback_chain 50 ⟨.ok ⟨2, []⟩, .ok ⟨2, []⟩⟩).2.2.2.2.1
      .badVersion ⟨2, []⟩ rfl rfl (by decide)⟩

end Mimir
